import Mathlib

/-!
# mopo `Processor` (src/mopo/src/processor.h)

A shallow embedding of the node abstraction of the mopo signal graph:
`Processor::Output`, `Processor::Input` and the inline members of `Processor`.
The members the header only declares (constructor, `plug`, `plugNext`,
`unplug`) are defined in processor.cpp; they are modelled from the
specification and marked as such.

Conventions of the embedding.

* `int` values are `Int`; no modelled function performs arithmetic on them, so
  no wrap-around can occur.
* `mopo_float` and `MAX_BUFFER_SIZE` come from `common.h`, which is not part of
  the sources at hand. They are parameters: a sample type `F` with a zero, and
  a capacity `M : Nat`. Samples are only stored, copied and zeroed.
* Pointers are explicit values (`OutputPtr`, `InputPtr`); the objects they
  point to live in a `Memory`. A C++ operation whose behaviour is undefined
  (null dereference, index past the end of an array or vector, write to a
  `const` object) returns `none`.
-/

namespace mopo

/-! ## Output port -/

/-- The fields of `struct Processor::Output` (processor.h:58-63). `owner` is a
`Processor*`: `none` is the null pointer, `some a` the processor at address
`a`. `buffer` is the array `mopo_float buffer[MAX_BUFFER_SIZE]`. -/
structure Output (F : Type) (M : Nat) where
  owner : Option Nat
  buffer : Fin M → F
  triggered : Bool
  trigger_offset : Int
  trigger_value : F

namespace Output

variable {F : Type} {M : Nat}

/-- The library call `memset(buffer, 0, count * sizeof(mopo_float))` seen at
the granularity of samples: the first `count` samples become zero (all-zero
bytes are the floating point zero), the others are kept. -/
def memsetZero [Zero F] (buffer : Fin M → F) (count : Nat) : Fin M → F :=
  fun k => if k.val < count then 0 else buffer k

/-- `Output::trigger(value, offset = 0)` (processor.h:42-46). -/
def trigger (o : Output F M) (value : F) (offset : Int := 0) : Output F M :=
  { o with triggered := true, trigger_offset := offset, trigger_value := value }

/-- `Output::clearTrigger()` (processor.h:48-52). -/
def clearTrigger [Zero F] (o : Output F M) : Output F M :=
  { o with triggered := false, trigger_offset := 0, trigger_value := 0 }

/-- `Output::clearBuffer()` (processor.h:54-56). -/
def clearBuffer [Zero F] (o : Output F M) : Output F M :=
  { o with buffer := memsetZero o.buffer M }

/-- The constructor `Output::Output()` (processor.h:36-40), run on storage
whose previous contents are `mem` (indeterminate for a new object). -/
def init [Zero F] (mem : Output F M) : Output F M :=
  clearTrigger (clearBuffer { mem with owner := none })

/-- The expression `buffer[i]` for an `int` index: defined when `i` is inside
the array. -/
def sample (o : Output F M) (i : Int) : Option F :=
  if h : 0 ≤ i ∧ i < (M : Int) then some (o.buffer ⟨i.toNat, by omega⟩) else none

/-- The assignment `buffer[i] = value` for an `int` index: defined when `i` is
inside the array. -/
def setSample (o : Output F M) (i : Int) (value : F) : Option (Output F M) :=
  if h : 0 ≤ i ∧ i < (M : Int) then
    some { o with buffer := Function.update o.buffer ⟨i.toNat, by omega⟩ value }
  else none

end Output

/-! ## Pointers and memory -/

/-- A value of type `const Output*` / `Output*`: the null pointer `0`, the
address of the static member `Processor::null_source_` (processor.h:190), or
the address of another `Output` object. -/
inductive OutputPtr where
  | null
  | null_source_
  | obj (addr : Nat)
  deriving DecidableEq, Repr

/-- A value of type `Input*`: `none` is the null pointer. -/
abbrev InputPtr := Option Nat

/-- The struct `Processor::Input` (processor.h:68-77): its only field is
`const Output* source`. -/
structure Input where
  source : OutputPtr
  deriving DecidableEq, Repr

/-- The constructor `Input::Input()` (processor.h:69): `source = 0`. -/
def Input.init : Input := { source := OutputPtr.null }

/-- The `Output` and `Input` objects alive in the program, by address. -/
structure Memory (F : Type) (M : Nat) where
  outputs : Nat → Option (Output F M)
  inputs : Nat → Option Input

/-- Modelled from the spec: the definition of the static member
`const Output Processor::null_source_` is in processor.cpp, which is not among
the sources; the header only declares it (processor.h:190). The spec calls it
the shared, permanently-zero Output. It is taken as a default-constructed
`Output` (the struct has no other constructor) over zero-initialised static
storage. -/
def null_source_ {F : Type} {M : Nat} [Zero F] : Output F M :=
  Output.init { owner := none, buffer := fun _ => 0, triggered := false,
                trigger_offset := 0, trigger_value := 0 }

namespace Memory

variable {F : Type} {M : Nat}

/-- Reading through a `const Output*`: undefined for the null pointer and for
an address holding no object. -/
def deref [Zero F] (m : Memory F M) : OutputPtr → Option (Output F M)
  | OutputPtr.null => none
  | OutputPtr.null_source_ => some null_source_
  | OutputPtr.obj a => m.outputs a

/-- Storing `o` through an `Output*`: undefined for the null pointer, for the
`const` object `null_source_` and for an address holding no object. -/
def store (m : Memory F M) (p : OutputPtr) (o : Output F M) : Option (Memory F M) :=
  match p with
  | OutputPtr.obj a =>
    if (m.outputs a).isSome then
      some { m with outputs := Function.update m.outputs a (some o) }
    else none
  | _ => none

end Memory

namespace Input

variable {F : Type} {M : Nat}

/-- `Input::at(int i)` (processor.h:73): `source->buffer[i]`. -/
def «at» [Zero F] (inp : Input) (m : Memory F M) (i : Int) : Option F :=
  (m.deref inp.source).bind fun s => s.sample i

/-- `Input::operator[](std::size_t i)` (processor.h:74-76):
`source->buffer[i]` with an unsigned index. -/
def index [Zero F] (inp : Input) (m : Memory F M) (i : Nat) : Option F :=
  (m.deref inp.source).bind fun s =>
    if h : i < M then some (s.buffer ⟨i, h⟩) else none

end Input

/-! ## Processor -/

/-- The data members of `Processor` read or written by the inline members of
the class (processor.h:178-188). `inputs_` and `outputs_` are the vectors the
pointers `inputs_` and `outputs_` point to (the active port collections). -/
structure Processor where
  sample_rate_ : Int
  buffer_size_ : Int
  control_rate_ : Bool
  inputs_ : List InputPtr
  outputs_ : List OutputPtr
  router_ : Option Nat
  deriving DecidableEq, Repr

/-- The expression `v->operator[](i)` on a `std::vector` with an `int` index
(converted to `size_t`): defined when `i` is a position of the vector. -/
def vectorAt {α : Type} (v : List α) (i : Int) : Option α :=
  if 0 ≤ i then v.get? i.toNat else none

namespace Processor

variable {F : Type} {M : Nat}

/-- `Processor::setSampleRate` (processor.h:90-92). -/
def setSampleRate (p : Processor) (sample_rate : Int) : Processor :=
  { p with sample_rate_ := sample_rate }

/-- `Processor::setBufferSize` (processor.h:94-99). -/
def setBufferSize (p : Processor) (buffer_size : Int) : Processor :=
  if p.control_rate_ then { p with buffer_size_ := 1 }
  else { p with buffer_size_ := buffer_size }

/-- `Processor::setControlRate(control_rate = true)` (processor.h:101-105). -/
def setControlRate (p : Processor) (control_rate : Bool := true) : Processor :=
  let p1 := { p with control_rate_ := control_rate }
  if control_rate then { p1 with buffer_size_ := 1 } else p1

/-- `Processor::getSampleRate` (processor.h:107-109). -/
def getSampleRate (p : Processor) : Int := p.sample_rate_

/-- `Processor::getBufferSize` (processor.h:111-113). -/
def getBufferSize (p : Processor) : Int := p.buffer_size_

/-- `Processor::isControlRate` (processor.h:115-117). -/
def isControlRate (p : Processor) : Bool := p.control_rate_

/-- `Processor::numInputs` (processor.h:150). -/
def numInputs (p : Processor) : Int := p.inputs_.length

/-- `Processor::numOutputs` (processor.h:151). -/
def numOutputs (p : Processor) : Int := p.outputs_.length

/-- `Processor::getInputSample(input, sample)` (processor.h:154-156):
`inputs_->operator[](input)->at(sample)`. -/
def getInputSample [Zero F] (p : Processor) (m : Memory F M)
    (input sample : Int) : Option F := do
  let ip ← vectorAt p.inputs_ input
  let a ← ip
  let inp ← m.inputs a
  inp.at m sample

/-- `Processor::writeOutputSample(output, sample, value)` (processor.h:159-161):
`outputs_->operator[](output)->buffer[sample] = value`. -/
def writeOutputSample [Zero F] (p : Processor) (m : Memory F M)
    (output sample : Int) (value : F) : Option (Memory F M) := do
  let op ← vectorAt p.outputs_ output
  let o ← m.deref op
  let o1 ← o.setSample sample value
  m.store op o1

end Processor

/-! ## Call sequences -/

/-- One call of a configuration member of `Processor`. -/
inductive ConfigCall where
  | setSampleRate (sample_rate : Int)
  | setBufferSize (buffer_size : Int)
  | setControlRate (control_rate : Bool)
  deriving DecidableEq, Repr

/-- The effect of one configuration call. -/
def Processor.call (p : Processor) : ConfigCall → Processor
  | ConfigCall.setSampleRate r => p.setSampleRate r
  | ConfigCall.setBufferSize n => p.setBufferSize n
  | ConfigCall.setControlRate b => p.setControlRate b

/-- The effect of a sequence of configuration calls, first call first. -/
def Processor.run (p : Processor) (calls : List ConfigCall) : Processor :=
  calls.foldl Processor.call p

/-- The property "control rate implies buffer size 1". -/
def Processor.controlRateInv (p : Processor) : Prop :=
  p.isControlRate = true → p.getBufferSize = 1

/-- One call of a mutating member of `Output`. -/
inductive OutputCall (F : Type) where
  | trigger (value : F) (offset : Int)
  | clearTrigger
  | clearBuffer

/-- The effect of one call on an `Output`. -/
def Output.call {F : Type} {M : Nat} [Zero F] (o : Output F M) :
    OutputCall F → Output F M
  | OutputCall.trigger v off => o.trigger v off
  | OutputCall.clearTrigger => o.clearTrigger
  | OutputCall.clearBuffer => o.clearBuffer

/-- The effect of a sequence of calls on an `Output`, first call first. -/
def Output.run {F : Type} {M : Nat} [Zero F] (o : Output F M)
    (calls : List (OutputCall F)) : Output F M :=
  calls.foldl Output.call o

/-! ## Assertions and port lookup -/

/-- The result of a call that may stop at an assertion: a value, a failed
`MOPO_ASSERT`, or undefined behaviour. -/
inductive Outcome (α : Type) where
  | value (a : α)
  | assertionFailure
  | undefined

/-- Modelled from the spec: the macro `MOPO_ASSERT` is defined in common.h,
which is not among the sources. The spec describes a contract violation as an
assertion-style fatal failure: when the condition is false the call stops with
an assertion failure, otherwise execution goes on with `rest`. -/
def MOPO_ASSERT {α : Type} (cond : Bool) (rest : Outcome α) : Outcome α :=
  if cond then rest else Outcome.assertionFailure

/-- The member `Processor::input(index = 0)` (processor.h:164-168):
`MOPO_ASSERT(index < inputs_->size())`, then `inputs_->operator[](index)`.
The index is an `unsigned int`. -/
def Processor.input (p : Processor) (index : Nat := 0) : Outcome InputPtr :=
  MOPO_ASSERT (decide (index < p.inputs_.length))
    (match p.inputs_.get? index with
      | some ip => Outcome.value ip
      | none => Outcome.undefined)

/-- The member `Processor::output(index = 0)` (processor.h:171-175):
`MOPO_ASSERT(index < outputs_->size())`, then `outputs_->operator[](index)`.
The index is an `unsigned int`. -/
def Processor.output (p : Processor) (index : Nat := 0) : Outcome OutputPtr :=
  MOPO_ASSERT (decide (index < p.outputs_.length))
    (match p.outputs_.get? index with
      | some op => Outcome.value op
      | none => Outcome.undefined)

/-! ## Wiring -/

/-- The assignment `input->source = source` on the `Input` object at address
`a`. -/
def Memory.setSource {F : Type} {M : Nat} (m : Memory F M) (a : Nat)
    (source : OutputPtr) : Memory F M :=
  { m with inputs := Function.update m.inputs a (some { source := source }) }

/-- Modelled from the spec: `Processor::plug(const Output*, unsigned int)` is
declared at processor.h:122-123 and defined in processor.cpp, which is not
among the sources. Spec: `plug(output, index)` attaches `output` to input
`index`; `plug(output)` attaches to input 0; `index < numInputs()` is a
precondition whose violation is a fatal assertion; wiring mutates only the
Input's source reference. A registered pointer that is null or points to no
object makes the assignment undefined. -/
def Processor.plug {F : Type} {M : Nat} (p : Processor) (m : Memory F M)
    (source : OutputPtr) (input_index : Nat := 0) : Outcome (Memory F M) :=
  MOPO_ASSERT (decide (input_index < p.inputs_.length))
    (match p.inputs_.get? input_index with
      | some (some a) =>
        if (m.inputs a).isSome then Outcome.value (m.setSource a source)
        else Outcome.undefined
      | _ => Outcome.undefined)

/-- The scan of `unplug` over the registered input pointers, in index order:
an Input whose source is `source` is reset to the shared silent Output. -/
def unplugScan {F : Type} {M : Nat} (source : OutputPtr) :
    List InputPtr → Memory F M → Option (Memory F M)
  | [], m => some m
  | none :: _, _ => none
  | some a :: rest, m =>
    match m.inputs a with
    | none => none
    | some inp =>
      unplugScan source rest
        (if inp.source = source then m.setSource a OutputPtr.null_source_ else m)

/-- Modelled from the spec: `Processor::unplug(const Output*)` is declared at
processor.h:133 and defined in processor.cpp, which is not among the sources.
Spec: `unplug(output)` scans all input ports of this node; every input
currently aliasing `output` is reset to the shared silent Output. Reading the
source through a registered pointer that is null or points to no object is
undefined (`none`). -/
def Processor.unplug {F : Type} {M : Nat} (p : Processor) (m : Memory F M)
    (source : OutputPtr) : Option (Memory F M) :=
  unplugScan source p.inputs_ m

/-- The scan of `plugNext` over the registered input pointers, in index order:
the first Input whose source is the shared silent Output gets `source`; `full`
is the result when no such Input exists. -/
def plugNextScan {F : Type} {M : Nat} (source : OutputPtr)
    (full : Outcome (Memory F M)) (m : Memory F M) :
    List InputPtr → Outcome (Memory F M)
  | [] => full
  | none :: _ => Outcome.undefined
  | some a :: rest =>
    match m.inputs a with
    | none => Outcome.undefined
    | some inp =>
      if inp.source = OutputPtr.null_source_ then Outcome.value (m.setSource a source)
      else plugNextScan source full m rest

/-- Modelled from the spec: `Processor::plugNext(const Output*)` is declared at
processor.h:128 and defined in processor.cpp, which is not among the sources.
Spec: `plugNext(output)` attaches to the first input port whose current source
is still the shared silent Output, scanning input ports in index order; when
no open slot exists the behaviour is the implementer's choice (no-op or fatal
error), taken here as the parameter `full`. Reading the source through a
registered pointer that is null or points to no object is undefined. -/
def Processor.plugNext {F : Type} {M : Nat} (p : Processor) (m : Memory F M)
    (source : OutputPtr) (full : Outcome (Memory F M)) : Outcome (Memory F M) :=
  plugNextScan source full m p.inputs_

/-- Successive `plugNext` calls on the same node, one per element of `sources`,
first element first; `full` is the behaviour when no open slot exists. A call
that does not return normally ends the sequence. -/
def Processor.plugNextAll {F : Type} {M : Nat} (p : Processor)
    (full : Memory F M → Outcome (Memory F M)) :
    List OutputPtr → Memory F M → Outcome (Memory F M)
  | [], m => Outcome.value m
  | source :: rest, m =>
    match p.plugNext m source (full m) with
    | Outcome.value m1 => Processor.plugNextAll p full rest m1
    | Outcome.assertionFailure => Outcome.assertionFailure
    | Outcome.undefined => Outcome.undefined

/-- Modelled from the spec: the constructor `Processor(int num_inputs,
int num_outputs)` is declared at processor.h:79 and defined in processor.cpp,
which is not among the sources. Spec: a node is constructed with a fixed
declared arity, its ports are registered at construction, an Input aliases the
shared silent Output before any explicit wiring, and the router association is
unset. `inAddrs` and `outAddrs` are the addresses at which the new port objects
are placed (their lengths are the arities) and `raw` the previous contents of
the storage of a new Output; the initial sample rate, buffer size and
control-rate flag are not given by the spec and are parameters. The result is
the new node and the memory holding its ports. -/
def Processor.construct {F : Type} {M : Nat} [Zero F] (inAddrs outAddrs : List Nat)
    (sample_rate buffer_size : Int) (control_rate : Bool) (raw : Output F M)
    (m : Memory F M) : Processor × Memory F M :=
  ({ sample_rate_ := sample_rate, buffer_size_ := buffer_size,
     control_rate_ := control_rate, inputs_ := inAddrs.map some,
     outputs_ := outAddrs.map OutputPtr.obj, router_ := none },
   { outputs := fun a => if a ∈ outAddrs then some (Output.init raw) else m.outputs a,
     inputs := fun a =>
       if a ∈ inAddrs then some { source := OutputPtr.null_source_ } else m.inputs a })

/-! ## Concrete objects used to instantiate the theorems -/

/-- Storage with arbitrary contents, four samples of type `Int`. -/
def rawOutput : Output Int 4 :=
  { owner := some 7, buffer := fun k => (k.val : Int) + 1, triggered := true,
    trigger_offset := 3, trigger_value := 9 }

/-- A node in audio-rate mode with block size 64. -/
def audioNode : Processor :=
  { sample_rate_ := 44100, buffer_size_ := 64, control_rate_ := false,
    inputs_ := [], outputs_ := [], router_ := none }

/-- A memory holding one `Output` at address 10 and one `Input` at address 20
whose source is that `Output`. -/
def wiredMemory : Memory Int 4 :=
  { outputs := fun a => if a = 10 then some rawOutput else none,
    inputs := fun a => if a = 20 then some { source := OutputPtr.obj 10 } else none }

/-- A node whose only output is the `Output` at address 10. -/
def nodeA : Processor :=
  { audioNode with outputs_ := [OutputPtr.obj 10] }

/-- A node whose only input is the `Input` at address 20. -/
def nodeB : Processor :=
  { audioNode with inputs_ := [some 20] }

/-- A node with block size 2 whose input 0 is the `Input` at address 20 and
whose output 0 is the `Output` at address 10. -/
def nodeC : Processor :=
  { audioNode with buffer_size_ := 2, inputs_ := [some 20],
                   outputs_ := [OutputPtr.obj 10] }

/-- A node constructed with two inputs, at addresses 20 and 21, and one output,
at address 12, together with the memory after its construction. -/
def freshNode : Processor × Memory Int 4 :=
  Processor.construct [20, 21] [12] 44100 64 false rawOutput wiredMemory

/-! ## Configuration of a node (C1, C2) -/

/-- C1: for every node state and every requested size `n`, after
`setBufferSize(n)` the call `getBufferSize()` returns 1 if the node is in
control-rate mode and `n` otherwise; the sample rate and the control-rate flag
are unchanged. -/
theorem C1_setBufferSize (p : Processor) (n : Int) :
    (p.setBufferSize n).getBufferSize = (if p.isControlRate then 1 else n) ∧
    (p.setBufferSize n).getSampleRate = p.getSampleRate ∧
    (p.setBufferSize n).isControlRate = p.isControlRate := by
  unfold Processor.setBufferSize Processor.getBufferSize Processor.getSampleRate
    Processor.isControlRate
  cases p.control_rate_ <;> simp

/-- Every configuration call preserves "control rate implies buffer size 1". -/
theorem controlRateInv_call (q : Processor) (c : ConfigCall)
    (h : q.controlRateInv) : (q.call c).controlRateInv := by
  unfold Processor.controlRateInv Processor.isControlRate Processor.getBufferSize at *
  cases c with
  | setSampleRate r => simpa [Processor.call, Processor.setSampleRate] using h
  | setBufferSize n =>
    intro hc
    cases hq : q.control_rate_ <;>
      simp [Processor.call, Processor.setBufferSize, hq] at hc ⊢
  | setControlRate b =>
    cases b <;> simp [Processor.call, Processor.setControlRate]

/-- A call other than `setControlRate(false)` keeps a node in control-rate
mode. -/
theorem isControlRate_call (q : Processor) (c : ConfigCall)
    (hc : c ≠ ConfigCall.setControlRate false) (h : q.isControlRate = true) :
    (q.call c).isControlRate = true := by
  unfold Processor.isControlRate at *
  cases c with
  | setSampleRate r => simpa [Processor.call, Processor.setSampleRate] using h
  | setBufferSize n => simp [Processor.call, Processor.setBufferSize, h]
  | setControlRate b =>
    cases b
    · exact absurd rfl hc
    · simp [Processor.call, Processor.setControlRate]

/-- A node in control-rate mode with buffer size 1 stays so along any sequence
of calls without `setControlRate(false)`. -/
theorem run_keeps_control_rate (calls : List ConfigCall) :
    ∀ q : Processor, ConfigCall.setControlRate false ∉ calls →
      q.isControlRate = true → q.controlRateInv →
      (q.run calls).isControlRate = true ∧ (q.run calls).controlRateInv := by
  induction calls with
  | nil => intro q _ hc hi; exact ⟨hc, hi⟩
  | cons c cs ih =>
    intro q hno hc hi
    have hne : c ≠ ConfigCall.setControlRate false := by
      intro e; exact hno (by simp [e])
    have hcs : ConfigCall.setControlRate false ∉ cs := by
      intro e; exact hno (List.mem_cons_of_mem _ e)
    have := ih (q.call c) hcs (isControlRate_call q c hne hc) (controlRateInv_call q c hi)
    simpa [Processor.run] using this

/-- C2: for every node state, after `setControlRate(true)` followed by any
finite sequence of configuration calls that contains no `setControlRate(false)`
(in particular any sequence of `setBufferSize(n)` and `setSampleRate(r)` calls),
`getBufferSize()` returns 1; and "control rate implies buffer size 1" is
preserved by `setSampleRate`, `setBufferSize` and `setControlRate`. -/
theorem C2_control_rate_invariant (p : Processor) (calls : List ConfigCall)
    (hno : ConfigCall.setControlRate false ∉ calls) :
    ((p.setControlRate true).run calls).getBufferSize = 1 ∧
    (∀ (q : Processor) (c : ConfigCall), q.controlRateInv → (q.call c).controlRateInv) := by
  refine ⟨?_, controlRateInv_call⟩
  have h0 : (p.setControlRate true).isControlRate = true := by
    simp [Processor.setControlRate, Processor.isControlRate]
  have h1 : (p.setControlRate true).controlRateInv := by
    intro _; simp [Processor.setControlRate, Processor.getBufferSize]
  have := run_keeps_control_rate calls (p.setControlRate true) hno h0 h1
  exact this.2 this.1

/-- C2 at a node in audio-rate mode with block size 64, followed by
`setBufferSize(512)`, `setSampleRate(48000)`, `setBufferSize(0)`. -/
theorem C2_control_rate_invariant_witness :
    ConfigCall.setControlRate false ∉
      [ConfigCall.setBufferSize 512, ConfigCall.setSampleRate 48000,
       ConfigCall.setBufferSize 0] ∧
    ((audioNode.setControlRate true).run
      [ConfigCall.setBufferSize 512, ConfigCall.setSampleRate 48000,
       ConfigCall.setBufferSize 0]).getBufferSize = 1 :=
  ⟨by decide, (C2_control_rate_invariant audioNode _ (by decide)).1⟩

/-! ## Output port (C3, C7, C8, C9, C10) -/

section OutputClaims

variable {F : Type} {M : Nat}

/-- C3: for every Output state, value `v` and offset `o`, after `trigger(v, o)`
the fields (triggered, trigger_value, trigger_offset) read exactly
(true, v, o) and the buffer and owner are unchanged; `trigger(v)` with the
offset omitted yields (true, v, 0). -/
theorem C3_trigger (out : Output F M) (v : F) (o : Int) :
    ((out.trigger v o).triggered, (out.trigger v o).trigger_value,
      (out.trigger v o).trigger_offset) = (true, v, o) ∧
    (out.trigger v o).buffer = out.buffer ∧
    (out.trigger v o).owner = out.owner ∧
    ((out.trigger v).triggered, (out.trigger v).trigger_value,
      (out.trigger v).trigger_offset) = (true, v, 0) :=
  ⟨rfl, rfl, rfl, rfl⟩

/-- C7: for every Output state, after `clearBuffer()` every sample
`buffer[k]`, `0 ≤ k < MAX_BUFFER_SIZE`, is zero, and the trigger fields and the
owner are unchanged; the operation is a total function of the state. -/
theorem C7_clearBuffer [Zero F] (out : Output F M) :
    (∀ k : Fin M, out.clearBuffer.buffer k = 0) ∧
    (∀ k : Int, 0 ≤ k → k < (M : Int) → out.clearBuffer.sample k = some 0) ∧
    out.clearBuffer.triggered = out.triggered ∧
    out.clearBuffer.trigger_offset = out.trigger_offset ∧
    out.clearBuffer.trigger_value = out.trigger_value ∧
    out.clearBuffer.owner = out.owner := by
  have hk : ∀ k : Fin M, out.clearBuffer.buffer k = 0 := by
    intro k
    simp [Output.clearBuffer, Output.memsetZero, k.isLt]
  refine ⟨hk, ?_, rfl, rfl, rfl, rfl⟩
  intro k h0 h1
  simp [Output.sample, h0, h1, hk]

/-- C7 on storage with arbitrary contents: sample 2 reads zero afterwards. -/
theorem C7_clearBuffer_witness :
    rawOutput.buffer 2 = 3 ∧ rawOutput.clearBuffer.sample 2 = some 0 :=
  ⟨rfl, (C7_clearBuffer rawOutput).2.1 2 (by decide) (by decide)⟩

/-- C8: for every Output state, with or without a pending trigger, after
`clearTrigger()` the fields (triggered, trigger_value, trigger_offset) read
exactly (false, 0, 0), and the buffer contents and owner are unchanged. -/
theorem C8_clearTrigger [Zero F] (out : Output F M) :
    (out.clearTrigger.triggered, out.clearTrigger.trigger_value,
      out.clearTrigger.trigger_offset) = (false, 0, 0) ∧
    out.clearTrigger.buffer = out.buffer ∧
    out.clearTrigger.owner = out.owner :=
  ⟨rfl, rfl, rfl⟩

/-- C9: a new trigger overwrites any unconsumed one: after `trigger(v1, o1)`
then `trigger(v2, o2)` the pending event is exactly (true, v2, o2), the buffer
and owner are those of the initial state, and the whole state equals the state
after `trigger(v2, o2)` alone, so nothing of the earlier event remains. -/
theorem C9_trigger_overwrites (out : Output F M) (v1 v2 : F) (o1 o2 : Int) :
    (((out.trigger v1 o1).trigger v2 o2).triggered,
      ((out.trigger v1 o1).trigger v2 o2).trigger_value,
      ((out.trigger v1 o1).trigger v2 o2).trigger_offset) = (true, v2, o2) ∧
    ((out.trigger v1 o1).trigger v2 o2).buffer = out.buffer ∧
    ((out.trigger v1 o1).trigger v2 o2).owner = out.owner ∧
    (out.trigger v1 o1).trigger v2 o2 = out.trigger v2 o2 ∧
    (out.trigger v2 o2).triggered = true ∧
    (out.trigger v2 o2).trigger_value = v2 ∧
    (out.trigger v2 o2).trigger_offset = o2 :=
  ⟨rfl, rfl, rfl, rfl, rfl, rfl, rfl⟩

/-- A call whose trigger offset (if it is a trigger) lies in `[0, n)` keeps
"a pending trigger has its offset in `[0, n)`". -/
theorem offset_in_range_call [Zero F] (n : Int) (out : Output F M) (c : OutputCall F)
    (hc : ∀ v off, c = OutputCall.trigger v off → 0 ≤ off ∧ off < n)
    (h : out.triggered = true → 0 ≤ out.trigger_offset ∧ out.trigger_offset < n) :
    (out.call c).triggered = true →
      0 ≤ (out.call c).trigger_offset ∧ (out.call c).trigger_offset < n := by
  cases c with
  | trigger v off => intro _; exact hc v off rfl
  | clearTrigger => intro ht; simp [Output.call, Output.clearTrigger] at ht
  | clearBuffer => exact h

/-- The previous property along a sequence of calls. -/
theorem offset_in_range_run [Zero F] (n : Int) (calls : List (OutputCall F)) :
    ∀ out : Output F M,
      (∀ v off, OutputCall.trigger v off ∈ calls → 0 ≤ off ∧ off < n) →
      (out.triggered = true → 0 ≤ out.trigger_offset ∧ out.trigger_offset < n) →
      (out.run calls).triggered = true →
        0 ≤ (out.run calls).trigger_offset ∧ (out.run calls).trigger_offset < n := by
  induction calls with
  | nil => intro out _ h; exact h
  | cons c cs ih =>
    intro out hc h
    have h1 := offset_in_range_call n out c
      (fun v off e => hc v off (by simp [e])) h
    have := ih (out.call c) (fun v off e => hc v off (List.mem_cons_of_mem _ e)) h1
    simpa [Output.run] using this

/-- C10, counterexample: on a freshly constructed Output (capacity 4),
`trigger(1, -1)` leaves a pending trigger whose offset -1 is below 0, and
`trigger(1, 4)` one whose offset 4 is not below the capacity 4. -/
theorem C10_offset_unchecked :
    ((Output.init rawOutput).run [OutputCall.trigger 1 (-1)]).triggered = true ∧
    ((Output.init rawOutput).run [OutputCall.trigger 1 (-1)]).trigger_offset = -1 ∧
    ¬ (0 ≤ ((Output.init rawOutput).run [OutputCall.trigger 1 (-1)]).trigger_offset) ∧
    ((Output.init rawOutput).run [OutputCall.trigger 1 4]).triggered = true ∧
    ¬ (((Output.init rawOutput).run [OutputCall.trigger 1 4]).trigger_offset < 4) := by
  refine ⟨rfl, rfl, ?_, rfl, ?_⟩ <;>
    simp [Output.run, Output.call, Output.trigger]

/-- C10, amended: for every Output reached from a freshly constructed Output
by a sequence of `trigger`, `clearTrigger` and `clearBuffer` calls in which
every `trigger` call was given an offset within `[0, n)`, whenever `triggered`
is true the stored `trigger_offset` lies within `[0, n)`. -/
theorem C10_offset_in_range [Zero F] (mem : Output F M) (calls : List (OutputCall F))
    (n : Int)
    (hcalls : ∀ v off, OutputCall.trigger v off ∈ calls → 0 ≤ off ∧ off < n)
    (ht : ((Output.init mem).run calls).triggered = true) :
    0 ≤ ((Output.init mem).run calls).trigger_offset ∧
    ((Output.init mem).run calls).trigger_offset < n :=
  offset_in_range_run n calls (Output.init mem) hcalls
    (fun h => by simp [Output.init, Output.clearTrigger] at h) ht

/-- C10, amended, at the calls `trigger(5, 2)`, `clearBuffer()`,
`clearTrigger()`, `trigger(6, 3)` with `n = 4`. -/
theorem C10_offset_in_range_witness :
    ((Output.init rawOutput).run
      [OutputCall.trigger 5 2, OutputCall.clearBuffer, OutputCall.clearTrigger,
       OutputCall.trigger 6 3]).triggered = true ∧
    0 ≤ ((Output.init rawOutput).run
      [OutputCall.trigger 5 2, OutputCall.clearBuffer, OutputCall.clearTrigger,
       OutputCall.trigger 6 3]).trigger_offset ∧
    ((Output.init rawOutput).run
      [OutputCall.trigger 5 2, OutputCall.clearBuffer, OutputCall.clearTrigger,
       OutputCall.trigger 6 3]).trigger_offset < 4 :=
  ⟨rfl, C10_offset_in_range rawOutput
      [OutputCall.trigger 5 2, OutputCall.clearBuffer, OutputCall.clearTrigger,
       OutputCall.trigger 6 3] 4
      (by
        intro v off h
        simp at h
        rcases h with ⟨_, rfl⟩ | ⟨_, rfl⟩ <;> decide)
      rfl⟩

end OutputClaims

/-! ## Input port (C4, C5) and sample access (C6) -/

section InputClaims

variable {F : Type} {M : Nat}

/-- Every sample of the shared silent Output is zero. -/
theorem null_source_buffer [Zero F] (k : Fin M) :
    (null_source_ : Output F M).buffer k = 0 := by
  simp [null_source_, Output.init, Output.clearTrigger, Output.clearBuffer,
    Output.memsetZero]

/-- Reading an in-range sample with an `int` index. -/
theorem sample_of_fin (s : Output F M) (k : Fin M) :
    s.sample (k.val : Int) = some (s.buffer k) := by
  have h : (0 : Int) ≤ (k.val : Int) ∧ ((k.val : Int) < (M : Int)) :=
    ⟨Int.ofNat_nonneg _, Int.ofNat_lt.mpr k.isLt⟩
  simp [Output.sample, h]

/-- C4, counterexample: a freshly constructed Input has the null pointer as its
source, not the shared silent Output, and `at(0)` on it is undefined. -/
theorem C4_fresh_input_is_null :
    Input.init.source = OutputPtr.null ∧
    Input.init.source ≠ OutputPtr.null_source_ ∧
    Input.init.at wiredMemory 0 = none ∧
    Input.init.at wiredMemory 0 ≠ some 0 := by
  refine ⟨rfl, by decide, rfl, ?_⟩
  simp [Input.at, Input.init, Memory.deref]

/-- C4, amended: a freshly constructed Input has a null source and `at(i)` on
it is undefined; an Input whose source is the shared permanently-zero Output
`null_source_` has `at(i)` (and `operator[](i)`) defined and equal to 0 for
every index `i` in `[0, MAX_BUFFER_SIZE)`, whatever the memory holds. -/
theorem C4_silent_input_reads_zero [Zero F] (inp : Input) (m : Memory F M)
    (h : inp.source = OutputPtr.null_source_) (i : Fin M) :
    inp.at m (i.val : Int) = some 0 ∧ inp.index m i.val = some 0 ∧
    Input.init.source = OutputPtr.null ∧
    (∀ j : Int, Input.init.at m j = none) := by
  refine ⟨?_, ?_, rfl, ?_⟩
  · simp [Input.at, h, Memory.deref, sample_of_fin, null_source_buffer]
  · simp [Input.index, h, Memory.deref, null_source_buffer]
  · intro j; simp [Input.at, Input.init, Memory.deref]

/-- C4, amended, at an Input reset to the silent Output, index 3 of 4. -/
theorem C4_silent_input_reads_zero_witness :
    (Input.mk OutputPtr.null_source_).at wiredMemory 3 = some 0 :=
  (C4_silent_input_reads_zero (Input.mk OutputPtr.null_source_) wiredMemory rfl 3).1

/-- C5: for every Input whose source is an Output `s` and every index `i`
with `0 ≤ i < MAX_BUFFER_SIZE`, `at(i)` returns exactly `s.buffer[i]` and
`operator[](i)` returns the same sample; the value read depends only on the
current contents of `s`: in any other memory where the source has the same
buffer, `at(i)` returns the same value. -/
theorem C5_input_at [Zero F] (inp : Input) (m : Memory F M) (s : Output F M)
    (h : m.deref inp.source = some s) (i : Fin M) :
    inp.at m (i.val : Int) = some (s.buffer i) ∧
    inp.index m i.val = some (s.buffer i) ∧
    (∀ (m2 : Memory F M) (s2 : Output F M), m2.deref inp.source = some s2 →
      s2.buffer = s.buffer → inp.at m2 (i.val : Int) = inp.at m (i.val : Int)) := by
  have h1 : inp.at m (i.val : Int) = some (s.buffer i) := by
    simp [Input.at, h, sample_of_fin]
  refine ⟨h1, ?_, ?_⟩
  · simp [Input.index, h]
  · intro m2 s2 h2 hb
    rw [h1]
    simp [Input.at, h2, sample_of_fin, hb]

/-- C5 at the Input at address 20 of `wiredMemory`, whose source is the Output
at address 10: sample 2 is `rawOutput.buffer[2] = 3`. -/
theorem C5_input_at_witness :
    (Input.mk (OutputPtr.obj 10)).at wiredMemory 2 = some 3 ∧
    (Input.mk (OutputPtr.obj 10)).index wiredMemory 2 = some 3 :=
  ⟨(C5_input_at (Input.mk (OutputPtr.obj 10)) wiredMemory rawOutput rfl 2).1,
   (C5_input_at (Input.mk (OutputPtr.obj 10)) wiredMemory rawOutput rfl 2).2.1⟩

/-- C6: if input `i` of a node `B` has as its source output `o` of a node `A`
(an Output object at address `a`), then for every sample index `k` with
`0 ≤ k < MAX_BUFFER_SIZE` and every value `v`, `A.writeOutputSample(o, k, v)`
is defined, leaves every Input object as it was, and afterwards
`B.getInputSample(i, k)` returns `v`. -/
theorem C6_write_read_round_trip [Zero F] (A B : Processor) (m : Memory F M)
    (o i : Int) (a b : Nat) (out : Output F M) (inp : Input)
    (hA : vectorAt A.outputs_ o = some (OutputPtr.obj a))
    (hout : m.outputs a = some out)
    (hB : vectorAt B.inputs_ i = some (some b))
    (hinp : m.inputs b = some inp)
    (hsrc : inp.source = OutputPtr.obj a)
    (k : Fin M) (v : F) :
    ∃ m1 : Memory F M,
      A.writeOutputSample m o (k.val : Int) v = some m1 ∧
      m1.inputs = m.inputs ∧
      B.getInputSample m1 i (k.val : Int) = some v := by
  have hk : (0 : Int) ≤ (k.val : Int) ∧ ((k.val : Int) < (M : Int)) :=
    ⟨Int.ofNat_nonneg _, Int.ofNat_lt.mpr k.isLt⟩
  let out1 : Output F M := { out with buffer := Function.update out.buffer k v }
  refine ⟨{ m with outputs := Function.update m.outputs a (some out1) }, ?_, rfl, ?_⟩
  · simp [Processor.writeOutputSample, hA, Memory.deref, hout, Output.setSample, hk,
      Memory.store]
  · simp [Processor.getInputSample, hB, hinp, Input.at, hsrc, Memory.deref,
      Output.sample, hk]

/-- C6 at `nodeA` (output 0 at address 10) and `nodeB` (input 0 at address 20,
wired to address 10): after writing 42 at sample 1, the input reads 42. -/
theorem C6_write_read_round_trip_witness :
    nodeB.getInputSample wiredMemory 0 1 = some 2 ∧
    ((nodeA.writeOutputSample wiredMemory 0 1 42).bind
      fun m1 => nodeB.getInputSample m1 0 1) = some 42 := by
  obtain ⟨m1, h1, _, h3⟩ :=
    C6_write_read_round_trip nodeA nodeB wiredMemory 0 0 10 20 rawOutput
      (Input.mk (OutputPtr.obj 10)) rfl rfl rfl rfl rfl 1 42
  have h1a : nodeA.writeOutputSample wiredMemory 0 1 42 = some m1 := h1
  have h3a : nodeB.getInputSample m1 0 1 = some 42 := h3
  refine ⟨rfl, ?_⟩
  rw [h1a]
  exact h3a

end InputClaims

/-! ## Port lookup and unchecked sample access (C11, C12) -/

/-- C11: `input(index)` fails with an assertion if and only if
`index >= numInputs()`, and otherwise returns the Input pointer registered at
that position of the active input collection; likewise `output(index)` with
`numOutputs()`; with the index omitted both look up index 0. -/
theorem C11_port_lookup (p : Processor) (index : Nat) :
    (p.input index = Outcome.assertionFailure ↔ p.numInputs ≤ (index : Int)) ∧
    ((index : Int) < p.numInputs →
      ∃ ip, p.inputs_.get? index = some ip ∧ p.input index = Outcome.value ip) ∧
    (p.output index = Outcome.assertionFailure ↔ p.numOutputs ≤ (index : Int)) ∧
    ((index : Int) < p.numOutputs →
      ∃ op, p.outputs_.get? index = some op ∧ p.output index = Outcome.value op) ∧
    p.input = p.input 0 ∧ p.output = p.output 0 := by
  refine ⟨?_, ?_, ?_, ?_, rfl, rfl⟩
  · unfold Processor.input MOPO_ASSERT Processor.numInputs
    by_cases h : index < p.inputs_.length
    · obtain ⟨ip, hip⟩ : ∃ ip, p.inputs_.get? index = some ip :=
        ⟨_, List.get?_eq_get h⟩
      simp [h, hip]
    · simp only [h, decide_False, Bool.false_eq_true, if_false, true_iff]
      exact_mod_cast Nat.le_of_not_lt h
  · intro h
    have h1 : index < p.inputs_.length := by
      unfold Processor.numInputs at h; exact_mod_cast h
    refine ⟨_, List.get?_eq_get h1, ?_⟩
    simp [Processor.input, MOPO_ASSERT, h1, List.get?_eq_get h1]
  · unfold Processor.output MOPO_ASSERT Processor.numOutputs
    by_cases h : index < p.outputs_.length
    · obtain ⟨op, hop⟩ : ∃ op, p.outputs_.get? index = some op :=
        ⟨_, List.get?_eq_get h⟩
      simp [h, hop]
    · simp only [h, decide_False, Bool.false_eq_true, if_false, true_iff]
      exact_mod_cast Nat.le_of_not_lt h
  · intro h
    have h1 : index < p.outputs_.length := by
      unfold Processor.numOutputs at h; exact_mod_cast h
    refine ⟨_, List.get?_eq_get h1, ?_⟩
    simp [Processor.output, MOPO_ASSERT, h1, List.get?_eq_get h1]

/-- C11 at `nodeC`: index 0 is in range for both lookups. -/
theorem C11_port_lookup_witness :
    (∃ ip, nodeC.inputs_.get? 0 = some ip ∧ nodeC.input 0 = Outcome.value ip) ∧
    (∃ op, nodeC.outputs_.get? 0 = some op ∧ nodeC.output 0 = Outcome.value op) :=
  ⟨(C11_port_lookup nodeC 0).2.1 (by decide),
   (C11_port_lookup nodeC 0).2.2.2.1 (by decide)⟩

section SampleAccess

variable {F : Type} {M : Nat}

/-- An `int` index outside a vector has no element. -/
theorem vectorAt_out_of_range {α : Type} (v : List α) (i : Int)
    (h : i < 0 ∨ (v.length : Int) ≤ i) : vectorAt v i = none := by
  unfold vectorAt
  by_cases h0 : 0 ≤ i
  · have h1 : v.length ≤ i.toNat := by omega
    rw [if_pos h0]
    exact List.get?_eq_none.mpr h1
  · simp [h0]

/-- An `int` index outside the sample array reads nothing. -/
theorem sample_out_of_range (s : Output F M) (j : Int)
    (h : j < 0 ∨ (M : Int) ≤ j) : s.sample j = none := by
  unfold Output.sample
  have : ¬ (0 ≤ j ∧ j < (M : Int)) := by omega
  simp [this]

/-- An `int` index outside the sample array cannot be written. -/
theorem setSample_out_of_range (s : Output F M) (j : Int) (v : F)
    (h : j < 0 ∨ (M : Int) ≤ j) : s.setSample j v = none := by
  unfold Output.setSample
  have : ¬ (0 ≤ j ∧ j < (M : Int)) := by omega
  simp [this]

/-- An `int` index outside the sample array cannot be read through an Input. -/
theorem at_out_of_range [Zero F] (inp : Input) (m : Memory F M) (j : Int)
    (h : j < 0 ∨ (M : Int) ≤ j) : inp.at m j = none := by
  unfold Input.at
  cases h3 : m.deref inp.source with
  | none => rfl
  | some s2 => simpa using sample_out_of_range s2 j h

/-- C12, counterexample: `nodeC` has block size 2 and capacity 4; with sample
index 3, past the block size, `getInputSample(0, 3)` returns the sample 4 and
`writeOutputSample(0, 3, 99)` stores 99, which the input then reads. -/
theorem C12_no_buffer_size_check :
    nodeC.getBufferSize = 2 ∧
    nodeC.getInputSample wiredMemory 0 3 = some 4 ∧
    ((nodeC.writeOutputSample wiredMemory 0 3 99).bind
      fun m1 => nodeC.getInputSample m1 0 3) = some 99 := by
  refine ⟨rfl, rfl, ?_⟩
  simp [Processor.writeOutputSample, Processor.getInputSample, nodeC, audioNode,
    vectorAt, wiredMemory, Memory.deref, Memory.store, Output.setSample,
    Output.sample, Input.at]

/-- C12, amended: `getInputSample` and `writeOutputSample` make no check. For
every node and memory: with a registered input whose pointers are valid and a
sample index in `[0, MAX_BUFFER_SIZE)`, `getInputSample` returns
`source->buffer[sample]` whatever the node's buffer size is; with a registered
output pointing to an Output object and such a sample index,
`writeOutputSample` stores the value whatever the buffer size is; with a port
index outside the collection or a sample index outside `[0, MAX_BUFFER_SIZE)`
the behaviour of either is undefined. Each part carries only its own
condition. -/
theorem C12_sample_access_unchecked [Zero F] (p : Processor) (m : Memory F M) :
    (∀ (input : Int) (b : Nat) (inp : Input) (s : Output F M) (k : Fin M) (size : Int),
      vectorAt p.inputs_ input = some (some b) →
      m.inputs b = some inp →
      m.deref inp.source = some s →
      Processor.getInputSample { p with buffer_size_ := size } m input (k.val : Int)
        = some (s.buffer k)) ∧
    (∀ (output : Int) (a : Nat) (out : Output F M) (k : Fin M) (v : F) (size : Int),
      vectorAt p.outputs_ output = some (OutputPtr.obj a) →
      m.outputs a = some out →
      ∃ m1 : Memory F M,
        Processor.writeOutputSample { p with buffer_size_ := size } m output
          (k.val : Int) v = some m1 ∧
        (m1.outputs a).bind (fun o => o.sample (k.val : Int)) = some v) ∧
    (∀ i j : Int, i < 0 ∨ p.numInputs ≤ i ∨ j < 0 ∨ (M : Int) ≤ j →
      p.getInputSample m i j = none) ∧
    (∀ (i j : Int) (v : F), i < 0 ∨ p.numOutputs ≤ i ∨ j < 0 ∨ (M : Int) ≤ j →
      p.writeOutputSample m i j v = none) := by
  refine ⟨?_, ?_, ?_, ?_⟩
  · intro input b inp s k size hin hinp hs
    simp [Processor.getInputSample, hin, hinp, Input.at, hs, sample_of_fin]
  · intro output a out k v size hout ho
    have hk : (0 : Int) ≤ (k.val : Int) ∧ ((k.val : Int) < (M : Int)) :=
      ⟨Int.ofNat_nonneg _, Int.ofNat_lt.mpr k.isLt⟩
    let out1 : Output F M := { out with buffer := Function.update out.buffer k v }
    refine ⟨{ m with outputs := Function.update m.outputs a (some out1) }, ?_, ?_⟩
    · simp [Processor.writeOutputSample, hout, Memory.deref, ho, Output.setSample, hk,
        Memory.store]
    · simp [Output.sample, hk]
  · intro i j h
    unfold Processor.getInputSample
    by_cases hi : i < 0 ∨ p.numInputs ≤ i
    · simp [vectorAt_out_of_range p.inputs_ i hi]
    · have hj : j < 0 ∨ (M : Int) ≤ j := by
        rcases h with h | h | h | h
        · exact absurd (Or.inl h) hi
        · exact absurd (Or.inr h) hi
        · exact Or.inl h
        · exact Or.inr h
      cases h1 : vectorAt p.inputs_ i with
      | none => simp
      | some ip =>
        cases ip with
        | none => simp
        | some c =>
          cases h2 : m.inputs c with
          | none => simp [h2]
          | some inp2 => simp [h2, at_out_of_range inp2 m j hj]
  · intro i j v h
    unfold Processor.writeOutputSample
    by_cases hi : i < 0 ∨ p.numOutputs ≤ i
    · simp [vectorAt_out_of_range p.outputs_ i hi]
    · have hj : j < 0 ∨ (M : Int) ≤ j := by
        rcases h with h | h | h | h
        · exact absurd (Or.inl h) hi
        · exact absurd (Or.inr h) hi
        · exact Or.inl h
        · exact Or.inr h
      cases h1 : vectorAt p.outputs_ i with
      | none => simp
      | some op =>
        cases h3 : m.deref op with
        | none => simp [h3]
        | some s2 => simp [h3, setSample_out_of_range s2 j v hj]

/-- C12, amended, at a node with inputs only (`nodeB` with block size 2, sample
3 is read), a node with outputs only (`nodeA` with block size 2, sample 3 is
written), and a node without ports (`audioNode`, nothing is read or
written). -/
theorem C12_sample_access_unchecked_witness :
    Processor.getInputSample { nodeB with buffer_size_ := 2 } wiredMemory 0 3 = some 4 ∧
    (∃ m1 : Memory Int 4,
      Processor.writeOutputSample { nodeA with buffer_size_ := 2 } wiredMemory 0 3 99
        = some m1 ∧
      (m1.outputs 10).bind (fun o => o.sample 3) = some 99) ∧
    audioNode.getInputSample wiredMemory 0 0 = none ∧
    audioNode.writeOutputSample wiredMemory 0 0 5 = none ∧
    nodeB.getInputSample wiredMemory 0 4 = none :=
  ⟨(C12_sample_access_unchecked nodeB wiredMemory).1 0 20
      (Input.mk (OutputPtr.obj 10)) rawOutput 3 2 rfl rfl rfl,
   (C12_sample_access_unchecked nodeA wiredMemory).2.1 0 10 rawOutput 3 99 2 rfl rfl,
   (C12_sample_access_unchecked audioNode wiredMemory).2.2.1 0 0
      (Or.inr (Or.inl (by decide))),
   (C12_sample_access_unchecked audioNode wiredMemory).2.2.2 0 0 5
      (Or.inr (Or.inl (by decide))),
   (C12_sample_access_unchecked nodeB wiredMemory).2.2.1 0 4
      (Or.inr (Or.inr (Or.inr (by decide))))⟩

end SampleAccess

/-! ## Control rate (C13, C18), construction of an Output (C17), frame of a
write (C19) -/

/-- C13: for every node state, after `setControlRate(true)` (also with the
argument omitted) `isControlRate()` is true and `getBufferSize()` is 1 at once,
whatever the buffer size was before; the sample rate is unchanged. -/
theorem C13_setControlRate_true (p : Processor) :
    (p.setControlRate true).isControlRate = true ∧
    (p.setControlRate true).getBufferSize = 1 ∧
    (p.setControlRate true).getSampleRate = p.getSampleRate ∧
    p.setControlRate = p.setControlRate true :=
  ⟨rfl, rfl, rfl, rfl⟩

/-- C18: after `setBufferSize(n)`, `setControlRate(true)`,
`setControlRate(false)` the node is no longer in control-rate mode but
`getBufferSize()` is still 1; `setControlRate(false)` on its own changes only
the flag and leaves the buffer size as it was, and the next
`setBufferSize(k)` stores `k`. -/
theorem C18_disable_keeps_buffer_size (p : Processor) (n k : Int) :
    ((((p.setBufferSize n).setControlRate true).setControlRate false).isControlRate
      = false) ∧
    ((((p.setBufferSize n).setControlRate true).setControlRate false).getBufferSize
      = 1) ∧
    p.setControlRate false = { p with control_rate_ := false } ∧
    (p.setControlRate false).getBufferSize = p.getBufferSize ∧
    ((p.setControlRate false).setBufferSize k).getBufferSize = k :=
  ⟨rfl, rfl, rfl, rfl, rfl⟩

section FreshOutput

variable {F : Type} {M : Nat}

/-- C17: a freshly constructed Output, whatever its storage held before, has
every sample `buffer[k]`, `0 ≤ k < MAX_BUFFER_SIZE`, equal to zero, has
(triggered, trigger_value, trigger_offset) = (false, 0, 0), and has no
owner. -/
theorem C17_fresh_output [Zero F] (mem : Output F M) :
    (∀ k : Fin M, (Output.init mem).buffer k = 0) ∧
    ((Output.init mem).triggered, (Output.init mem).trigger_value,
      (Output.init mem).trigger_offset) = (false, 0, 0) ∧
    (Output.init mem).owner = none := by
  refine ⟨?_, rfl, rfl⟩
  intro k
  simp [Output.init, Output.clearTrigger, Output.clearBuffer, Output.memsetZero]

/-- C19: `writeOutputSample(o, k, v)` on a registered output (an Output object
at address `a`) with `0 ≤ k < MAX_BUFFER_SIZE` is defined and changes only
sample `k` of that Output: its other samples, its trigger fields and owner,
every other Output object and every Input object are unchanged. The node
itself is not written: the call assigns no data member of the node. -/
theorem C19_write_frame [Zero F] (p : Processor) (m : Memory F M) (o : Int)
    (a : Nat) (out : Output F M)
    (hA : vectorAt p.outputs_ o = some (OutputPtr.obj a))
    (hout : m.outputs a = some out) (k : Fin M) (v : F) :
    ∃ (m1 : Memory F M) (out1 : Output F M),
      p.writeOutputSample m o (k.val : Int) v = some m1 ∧
      m1.outputs a = some out1 ∧
      out1.buffer k = v ∧
      (∀ j : Fin M, j ≠ k → out1.buffer j = out.buffer j) ∧
      out1.triggered = out.triggered ∧
      out1.trigger_offset = out.trigger_offset ∧
      out1.trigger_value = out.trigger_value ∧
      out1.owner = out.owner ∧
      (∀ b : Nat, b ≠ a → m1.outputs b = m.outputs b) ∧
      m1.inputs = m.inputs := by
  have hk : (0 : Int) ≤ (k.val : Int) ∧ ((k.val : Int) < (M : Int)) :=
    ⟨Int.ofNat_nonneg _, Int.ofNat_lt.mpr k.isLt⟩
  let out1 : Output F M := { out with buffer := Function.update out.buffer k v }
  refine ⟨{ m with outputs := Function.update m.outputs a (some out1) }, out1,
    ?_, ?_, ?_, ?_, rfl, rfl, rfl, rfl, ?_, rfl⟩
  · simp [Processor.writeOutputSample, hA, Memory.deref, hout, Output.setSample, hk,
      Memory.store, out1]
  · simp
  · simp [out1]
  · intro j hj
    simp [out1, Function.update_noteq hj]
  · intro b hb
    simp [Function.update_noteq hb]

/-- C19 at `nodeC` and `wiredMemory`: writing 42 at sample 1 of output 0 is
defined, and sample 2 of the Output at address 10 still reads 3. -/
theorem C19_write_frame_witness :
    ((nodeC.writeOutputSample wiredMemory 0 1 42).bind
      fun m1 => (m1.outputs 10).map fun o => (o.buffer 1, o.buffer 2, o.triggered))
      = some (42, 3, true) := by
  obtain ⟨m1, out1, h1, h2, h3, h4, h5, _⟩ :=
    C19_write_frame nodeC wiredMemory 0 10 rawOutput rfl rfl 1 42
  have h1a : nodeC.writeOutputSample wiredMemory 0 1 42 = some m1 := h1
  have h4a : out1.buffer 2 = rawOutput.buffer 2 := h4 2 (by decide)
  rw [h1a]
  simp [h2, h3, h4a, h5, rawOutput]

end FreshOutput

/-! ## Wiring (C14, C15, C16) -/

section Wiring

variable {F : Type} {M : Nat}

/-- Reading through an Output pointer depends only on the Output objects. -/
theorem deref_congr [Zero F] (m1 m : Memory F M) (h : m1.outputs = m.outputs)
    (q : OutputPtr) : m1.deref q = m.deref q := by
  cases q <;> simp [Memory.deref, h]

/-- Assigning a source changes the Input at that address only. -/
theorem setSource_inputs_ne (m : Memory F M) (a b : Nat) (src : OutputPtr)
    (h : b ≠ a) : (m.setSource a src).inputs b = m.inputs b := by
  simp [Memory.setSource, Function.update_noteq h]

/-- After assigning a source, the Input at that address holds it. -/
theorem setSource_inputs_self (m : Memory F M) (a : Nat) (src : OutputPtr) :
    (m.setSource a src).inputs a = some { source := src } := by
  simp [Memory.setSource]

/-- An Input whose source is the shared silent Output reads zero. -/
theorem silent_at [Zero F] (m : Memory F M) (k : Fin M) :
    (Input.mk OutputPtr.null_source_).at m (k.val : Int) = some 0 := by
  simp [Input.at, Memory.deref, sample_of_fin, null_source_buffer]

/-- C14: for every node, every Output `output` and every index `i` of a
registered, live Input (so `i < numInputs()`), `plug(output, i)` returns
normally; afterwards the source of `input(i)` is `output`, reading any sample
index `k` from `input(i)` is reading `output.buffer[k]` (defined for
`0 ≤ k < MAX_BUFFER_SIZE`), every other Input object and every Output object
is unchanged, and `plug(output)` without an index is `plug(output, 0)`. -/
theorem C14_plug [Zero F] (p : Processor) (m : Memory F M) (output : OutputPtr)
    (out : Output F M) (i a : Nat)
    (hi : p.inputs_.get? i = some (some a))
    (hlive : (m.inputs a).isSome = true)
    (hout : m.deref output = some out) :
    ∃ m1 : Memory F M,
      p.plug m output i = Outcome.value m1 ∧
      (i : Int) < p.numInputs ∧
      p.input i = Outcome.value (some a) ∧
      m1.inputs a = some { source := output } ∧
      (∀ k : Int, p.getInputSample m1 (i : Int) k = out.sample k) ∧
      (∀ k : Fin M, p.getInputSample m1 (i : Int) (k.val : Int) = some (out.buffer k)) ∧
      (∀ b : Nat, b ≠ a → m1.inputs b = m.inputs b) ∧
      m1.outputs = m.outputs ∧
      p.plug m output = p.plug m output 0 := by
  have hlt : i < p.inputs_.length := by
    by_contra hge
    rw [List.get?_eq_none.mpr (Nat.le_of_not_lt hge)] at hi
    exact Option.noConfusion hi
  have hread : ∀ k : Int,
      p.getInputSample (m.setSource a output) (i : Int) k = out.sample k := by
    intro k
    have hd : (m.setSource a output).deref output = some out := by
      rw [deref_congr (m.setSource a output) m rfl]; exact hout
    have hi2 : p.inputs_[i]? = some (some a) := by simpa using hi
    simp [Processor.getInputSample, vectorAt, hi2, setSource_inputs_self, Input.at, hd]
  refine ⟨m.setSource a output, ?_, ?_, ?_, setSource_inputs_self m a output, hread,
    ?_, ?_, rfl, rfl⟩
  · unfold Processor.plug MOPO_ASSERT
    rw [hi]
    simp [hlt, hlive]
  · unfold Processor.numInputs; exact_mod_cast hlt
  · unfold Processor.input MOPO_ASSERT
    rw [hi]
    simp [hlt]
  · intro k
    rw [hread, sample_of_fin]
  · intro b hb
    exact setSource_inputs_ne m a b output hb

/-- C14 at `nodeC` and `wiredMemory`: plugging the shared silent Output into
input 0 makes sample 2 of that input read zero. -/
theorem C14_plug_witness :
    nodeC.getInputSample wiredMemory 0 2 = some 3 ∧
    (match nodeC.plug wiredMemory OutputPtr.null_source_ 0 with
      | Outcome.value m1 => nodeC.getInputSample m1 0 2
      | _ => none) = some 0 := by
  obtain ⟨m1, h1, _, _, _, _, h6, _⟩ :=
    C14_plug nodeC wiredMemory OutputPtr.null_source_ null_source_ 0 20 rfl rfl rfl
  refine ⟨rfl, ?_⟩
  rw [h1]
  have h := h6 2
  rw [null_source_buffer] at h
  exact h

/-- The scan of `unplug` over live registered inputs returns normally, keeps
the Output objects, changes an Input only by resetting one whose source was
`source`, and resets every registered Input whose source was `source`. -/
theorem unplugScan_spec (source : OutputPtr) (l : List InputPtr) :
    ∀ m : Memory F M,
      (∀ ip ∈ l, ∃ a, ip = some a ∧ (m.inputs a).isSome = true) →
      ∃ m1 : Memory F M,
        unplugScan source l m = some m1 ∧
        m1.outputs = m.outputs ∧
        (∀ b, m1.inputs b = m.inputs b ∨
          ∃ inp, m.inputs b = some inp ∧ inp.source = source ∧
            m1.inputs b = some { source := OutputPtr.null_source_ }) ∧
        (∀ b inp, some b ∈ l → m.inputs b = some inp → inp.source = source →
          m1.inputs b = some { source := OutputPtr.null_source_ }) := by
  induction l with
  | nil =>
    intro m _
    exact ⟨m, rfl, rfl, fun _ => Or.inl rfl, fun b inp hb => by simp at hb⟩
  | cons ip rest ih =>
    intro m hlive
    obtain ⟨a, rfl, ha⟩ := hlive ip (List.mem_cons_self _ _)
    obtain ⟨inp0, hinp0⟩ := Option.isSome_iff_exists.mp ha
    by_cases hsrc : inp0.source = source
    · -- the Input at `a` is reset before the scan goes on
      have hlive1 : ∀ ip ∈ rest, ∃ c, ip = some c ∧
          ((m.setSource a OutputPtr.null_source_).inputs c).isSome = true := by
        intro ip hip
        obtain ⟨c, hc, hcl⟩ := hlive ip (List.mem_cons_of_mem _ hip)
        refine ⟨c, hc, ?_⟩
        by_cases hca : c = a
        · rw [hca, setSource_inputs_self]; rfl
        · rw [setSource_inputs_ne m a c _ hca]; exact hcl
      obtain ⟨m1, h1, h2, hA, hB⟩ := ih (m.setSource a OutputPtr.null_source_) hlive1
      have hself : m1.inputs a = some { source := OutputPtr.null_source_ } := by
        rcases hA a with h | ⟨_, _, _, h⟩
        · rw [h, setSource_inputs_self]
        · exact h
      refine ⟨m1, ?_, h2, ?_, ?_⟩
      · simp [unplugScan, hinp0, hsrc, h1]
      · intro b
        by_cases hba : b = a
        · subst hba
          exact Or.inr ⟨inp0, hinp0, hsrc, hself⟩
        · rcases hA b with h | ⟨inp, hm, hs, h⟩
          · exact Or.inl (by rw [h, setSource_inputs_ne m a b _ hba])
          · rw [setSource_inputs_ne m a b _ hba] at hm
            exact Or.inr ⟨inp, hm, hs, h⟩
      · intro b inp hb hm hs
        by_cases hba : b = a
        · subst hba; exact hself
        · have hb1 : some b ∈ rest := by
            rcases List.mem_cons.mp hb with h | h
            · exact absurd (Option.some.inj h) hba
            · exact h
          exact hB b inp hb1 (by rw [setSource_inputs_ne m a b _ hba]; exact hm) hs
    · -- the Input at `a` is left as it is
      have hlive1 : ∀ ip ∈ rest, ∃ c, ip = some c ∧ (m.inputs c).isSome = true :=
        fun ip hip => hlive ip (List.mem_cons_of_mem _ hip)
      obtain ⟨m1, h1, h2, hA, hB⟩ := ih m hlive1
      refine ⟨m1, ?_, h2, hA, ?_⟩
      · simp [unplugScan, hinp0, hsrc, h1]
      · intro b inp hb hm hs
        have hb1 : some b ∈ rest := by
          rcases List.mem_cons.mp hb with h | h
          · have hba : b = a := Option.some.inj h
            subst hba
            rw [hinp0] at hm
            exact absurd ((Option.some.inj hm) ▸ hs) hsrc
          · exact h
        exact hB b inp hb1 hm hs

/-- C15: for every node whose registered inputs are live Input objects and
every Output pointer `output`, `unplug(output)` returns normally; afterwards
every registered input whose source was `output` has the shared silent Output
as its source and reads zero at every sample index, every input whose source
was a different Output keeps it, and no Output object is changed. -/
theorem C15_unplug [Zero F] (p : Processor) (m : Memory F M) (output : OutputPtr)
    (hlive : ∀ ip ∈ p.inputs_, ∃ a, ip = some a ∧ (m.inputs a).isSome = true) :
    ∃ m1 : Memory F M,
      p.unplug m output = some m1 ∧
      m1.outputs = m.outputs ∧
      (∀ j a inp, p.inputs_.get? j = some (some a) → m.inputs a = some inp →
        inp.source = output →
        m1.inputs a = some { source := OutputPtr.null_source_ } ∧
        ∀ k : Fin M, p.getInputSample m1 (j : Int) (k.val : Int) = some 0) ∧
      (∀ a inp, m.inputs a = some inp → inp.source ≠ output →
        m1.inputs a = some inp) := by
  obtain ⟨m1, h1, h2, hA, hB⟩ := unplugScan_spec output p.inputs_ m hlive
  refine ⟨m1, h1, h2, ?_, ?_⟩
  · intro j a inp hj hm hs
    have hreset := hB a inp (List.get?_mem hj) hm hs
    refine ⟨hreset, fun k => ?_⟩
    have hj2 : p.inputs_[j]? = some (some a) := by simpa using hj
    have h := silent_at m1 k
    simpa [Processor.getInputSample, vectorAt, hj2, hreset] using h
  · intro a inp hm hs
    rcases hA a with h | ⟨inp2, hm2, hs2, _⟩
    · rw [h, hm]
    · rw [hm] at hm2
      exact absurd ((Option.some.inj hm2) ▸ hs2) hs

/-- C15 at `nodeC` and `wiredMemory`: input 0 reads 3 at sample 2 before
`unplug` of the Output at address 10 and zero afterwards. -/
theorem C15_unplug_witness :
    nodeC.getInputSample wiredMemory 0 2 = some 3 ∧
    ((nodeC.unplug wiredMemory (OutputPtr.obj 10)).bind
      fun m1 => nodeC.getInputSample m1 0 2) = some 0 := by
  obtain ⟨m1, h1, _, h3, _⟩ :=
    C15_unplug nodeC wiredMemory (OutputPtr.obj 10)
      (by
        intro ip hip
        have : ip = some 20 := by simpa [nodeC] using hip
        exact ⟨20, this, rfl⟩)
  have h20 := (h3 0 20 (Input.mk (OutputPtr.obj 10)) rfl rfl rfl).2 2
  refine ⟨rfl, ?_⟩
  rw [h1]
  exact h20

/-- An Input whose source is the shared silent Output is that Input. -/
theorem input_eq_silent (inp : Input) (h : inp.source = OutputPtr.null_source_) :
    inp = { source := OutputPtr.null_source_ } := by
  cases inp; simp at h; simp [h]

/-- The scan of `plugNext` over live registered inputs, one of which is open,
plugs the lowest-indexed open one. -/
theorem plugNextScan_spec (source : OutputPtr) (full : Outcome (Memory F M))
    (m : Memory F M) (l : List InputPtr) :
    (∀ ip ∈ l, ∃ a, ip = some a ∧ (m.inputs a).isSome = true) →
    (∃ a, some a ∈ l ∧ m.inputs a = some { source := OutputPtr.null_source_ }) →
    ∃ i a, l.get? i = some (some a) ∧
      m.inputs a = some { source := OutputPtr.null_source_ } ∧
      (∀ j b, j < i → l.get? j = some (some b) →
        m.inputs b ≠ some { source := OutputPtr.null_source_ }) ∧
      plugNextScan source full m l = Outcome.value (m.setSource a source) := by
  induction l with
  | nil => intro _ ⟨a, ha, _⟩; simp at ha
  | cons ip rest ih =>
    intro hlive hopen
    obtain ⟨a0, rfl, ha0⟩ := hlive _ (List.mem_cons_self _ _)
    obtain ⟨inp0, hinp0⟩ := Option.isSome_iff_exists.mp ha0
    by_cases h0 : inp0.source = OutputPtr.null_source_
    · refine ⟨0, a0, rfl, ?_, ?_, ?_⟩
      · rw [hinp0, input_eq_silent inp0 h0]
      · intro j b hj; exact absurd hj (Nat.not_lt_zero j)
      · simp [plugNextScan, hinp0, h0]
    · have hne : m.inputs a0 ≠ some { source := OutputPtr.null_source_ } := by
        intro h
        rw [hinp0] at h
        exact h0 (by rw [Option.some.inj h])
      have hopen1 : ∃ a, some a ∈ rest ∧
          m.inputs a = some { source := OutputPtr.null_source_ } := by
        obtain ⟨a, ha, hs⟩ := hopen
        rcases List.mem_cons.mp ha with h | h
        · have : a = a0 := Option.some.inj h
          subst this
          exact absurd hs hne
        · exact ⟨a, h, hs⟩
      obtain ⟨i, a, hi, hs, hlow, hscan⟩ :=
        ih (fun ip hip => hlive ip (List.mem_cons_of_mem _ hip)) hopen1
      refine ⟨i + 1, a, by simpa using hi, hs, ?_, ?_⟩
      · intro j b hj hb
        cases j with
        | zero =>
          have : b = a0 := by simpa using hb.symm
          subst this
          exact hne
        | succ j1 => exact hlow j1 b (Nat.lt_of_succ_lt_succ hj) (by simpa using hb)
      · simp [plugNextScan, hinp0, h0, hscan]

/-- The scan of `plugNext` passes the inputs that are already wired and plugs
the first open one. -/
theorem plugNextScan_skip (source : OutputPtr) (full : Outcome (Memory F M))
    (m : Memory F M) (a : Nat) (rest : List Nat)
    (ha : m.inputs a = some { source := OutputPtr.null_source_ }) (pre : List Nat) :
    (∀ b ∈ pre, ∃ inp, m.inputs b = some inp ∧ inp.source ≠ OutputPtr.null_source_) →
    plugNextScan source full m ((pre ++ a :: rest).map some)
      = Outcome.value (m.setSource a source) := by
  induction pre with
  | nil => intro _; simp [plugNextScan, ha]
  | cons b pre1 ih =>
    intro h
    obtain ⟨inp, hb, hs⟩ := h b (List.mem_cons_self _ _)
    have := ih (fun c hc => h c (List.mem_cons_of_mem _ hc))
    simpa [plugNextScan, hb, hs] using this

/-- Successive `plugNext` calls on a node whose inputs `pre` are wired and
whose inputs `post` are open fill `post` in index order and keep `pre`. -/
theorem plugNextAll_fills (p : Processor) (full : Memory F M → Outcome (Memory F M))
    (post : List Nat) :
    ∀ (pre outs : List Nat) (m : Memory F M),
      p.inputs_ = (pre ++ post).map some →
      (pre ++ post).Nodup →
      outs.length = post.length →
      (∀ b ∈ pre, ∃ inp, m.inputs b = some inp ∧ inp.source ≠ OutputPtr.null_source_) →
      (∀ b ∈ post, m.inputs b = some { source := OutputPtr.null_source_ }) →
      ∃ m1 : Memory F M,
        p.plugNextAll full (outs.map OutputPtr.obj) m = Outcome.value m1 ∧
        m1.outputs = m.outputs ∧
        (∀ b ∈ pre, m1.inputs b = m.inputs b) ∧
        (∀ j a o, post.get? j = some a → outs.get? j = some o →
          m1.inputs a = some { source := OutputPtr.obj o }) := by
  induction post with
  | nil =>
    intro pre outs m _ _ hlen _ _
    have : outs = [] := List.length_eq_zero.mp hlen
    subst this
    exact ⟨m, rfl, rfl, fun _ _ => rfl, fun j a o h => by simp at h⟩
  | cons a post1 ih =>
    intro pre outs m hp hnd hlen hpre hpost
    cases outs with
    | nil => simp at hlen
    | cons o outs1 =>
      have hlen1 : outs1.length = post1.length := by simpa using hlen
      have hapre : a ∉ pre := by
        intro h
        exact (List.nodup_append.mp hnd).2.2 h (List.mem_cons_self _ _)
      have hapost : a ∉ post1 :=
        (List.nodup_cons.mp (List.nodup_append.mp hnd).2.1).1
      have hstep : p.plugNext m (OutputPtr.obj o) (full m)
          = Outcome.value (m.setSource a (OutputPtr.obj o)) := by
        unfold Processor.plugNext
        rw [hp]
        exact plugNextScan_skip _ _ m a post1 (hpost a (List.mem_cons_self _ _)) pre hpre
      have hp1 : p.inputs_ = ((pre ++ [a]) ++ post1).map some := by
        rw [hp]; simp
      have hnd1 : ((pre ++ [a]) ++ post1).Nodup := by
        simpa using hnd
      have hpre1 : ∀ b ∈ pre ++ [a], ∃ inp,
          (m.setSource a (OutputPtr.obj o)).inputs b = some inp ∧
          inp.source ≠ OutputPtr.null_source_ := by
        intro b hb
        rcases List.mem_append.mp hb with h | h
        · have hba : b ≠ a := fun e => hapre (e ▸ h)
          rw [setSource_inputs_ne m a b _ hba]
          exact hpre b h
        · have hba : b = a := by simpa using h
          subst hba
          exact ⟨_, setSource_inputs_self m b _, by simp⟩
      have hpost1 : ∀ b ∈ post1, (m.setSource a (OutputPtr.obj o)).inputs b
          = some { source := OutputPtr.null_source_ } := by
        intro b hb
        have hba : b ≠ a := fun e => hapost (e ▸ hb)
        rw [setSource_inputs_ne m a b _ hba]
        exact hpost b (List.mem_cons_of_mem _ hb)
      obtain ⟨m1, h1, h2, h3, h4⟩ :=
        ih (pre ++ [a]) outs1 (m.setSource a (OutputPtr.obj o)) hp1 hnd1 hlen1 hpre1 hpost1
      refine ⟨m1, ?_, ?_, ?_, ?_⟩
      · simp only [List.map_cons, Processor.plugNextAll, hstep]
        exact h1
      · rw [h2]; rfl
      · intro b hb
        have hba : b ≠ a := fun e => hapre (e ▸ hb)
        rw [h3 b (List.mem_append_left _ hb), setSource_inputs_ne m a b _ hba]
      · intro j a2 o2 hj ho
        cases j with
        | zero =>
          have e1 : a = a2 := by simpa using hj
          have e2 : o = o2 := by simpa using ho
          subst e1; subst e2
          rw [h3 a (List.mem_append_right _ (List.mem_singleton_self a)),
            setSource_inputs_self]
        | succ j1 => exact h4 j1 a2 o2 (by simpa using hj) (by simpa using ho)

/-- C16: for every node whose registered inputs are live and at least one of
which is open (its source is the shared silent Output), `plugNext(output)`
returns normally, sets the source of the lowest-indexed open input to `output`
and leaves every other Input object and every Output object unchanged;
consequently, on a freshly constructed node with inputs at the distinct
addresses `inAddrs`, `numInputs()` successive `plugNext` calls with the Output
objects at addresses `outs` leave input `j` aliasing the `j`-th of them, for
every `j`. -/
theorem C16_plugNext [Zero F] (p : Processor) (m : Memory F M) (output : OutputPtr)
    (full : Outcome (Memory F M))
    (hlive : ∀ ip ∈ p.inputs_, ∃ a, ip = some a ∧ (m.inputs a).isSome = true)
    (hopen : ∃ a, some a ∈ p.inputs_ ∧
      m.inputs a = some { source := OutputPtr.null_source_ }) :
    (∃ i a, p.inputs_.get? i = some (some a) ∧
      m.inputs a = some { source := OutputPtr.null_source_ } ∧
      (∀ j b, j < i → p.inputs_.get? j = some (some b) →
        m.inputs b ≠ some { source := OutputPtr.null_source_ }) ∧
      ∃ m1 : Memory F M,
        p.plugNext m output full = Outcome.value m1 ∧
        m1.inputs a = some { source := output } ∧
        (∀ b, b ≠ a → m1.inputs b = m.inputs b) ∧
        m1.outputs = m.outputs) ∧
    (∀ (inAddrs outAddrs outs : List Nat) (sample_rate buffer_size : Int)
        (control_rate : Bool) (raw : Output F M) (m0 : Memory F M)
        (fullf : Memory F M → Outcome (Memory F M)),
      inAddrs.Nodup →
      (outs.length : Int) = (Processor.construct inAddrs outAddrs sample_rate
        buffer_size control_rate raw m0).1.numInputs →
      ∃ m1 : Memory F M,
        (Processor.construct inAddrs outAddrs sample_rate buffer_size control_rate
            raw m0).1.plugNextAll fullf (outs.map OutputPtr.obj)
          (Processor.construct inAddrs outAddrs sample_rate buffer_size control_rate
            raw m0).2 = Outcome.value m1 ∧
        ∀ j o, outs.get? j = some o →
          ∃ a, (Processor.construct inAddrs outAddrs sample_rate buffer_size
                  control_rate raw m0).1.inputs_.get? j = some (some a) ∧
            m1.inputs a = some { source := OutputPtr.obj o }) := by
  refine ⟨?_, ?_⟩
  · obtain ⟨i, a, hi, hs, hlow, hscan⟩ :=
      plugNextScan_spec output full m p.inputs_ hlive hopen
    exact ⟨i, a, hi, hs, hlow, m.setSource a output, hscan,
      setSource_inputs_self m a output,
      fun b hb => setSource_inputs_ne m a b output hb, rfl⟩
  · intro inAddrs outAddrs outs sample_rate buffer_size control_rate raw m0 fullf
      hnd hlen
    have hlen1 : outs.length = inAddrs.length := by
      simpa [Processor.construct, Processor.numInputs] using hlen
    obtain ⟨m1, h1, _, _, h4⟩ :=
      plugNextAll_fills
        (Processor.construct inAddrs outAddrs sample_rate buffer_size control_rate
          raw m0).1 fullf inAddrs [] outs
        (Processor.construct inAddrs outAddrs sample_rate buffer_size control_rate
          raw m0).2
        (by simp [Processor.construct]) (by simpa using hnd) hlen1
        (fun b hb => by simp at hb)
        (fun b hb => by simp [Processor.construct, hb])
    refine ⟨m1, h1, ?_⟩
    intro j o ho
    have hj : j < inAddrs.length := by
      have : j < outs.length := by
        by_contra hge
        rw [List.get?_eq_none.mpr (Nat.le_of_not_lt hge)] at ho
        exact Option.noConfusion ho
      omega
    refine ⟨inAddrs.get ⟨j, hj⟩, ?_, h4 j _ o (List.get?_eq_get hj) ho⟩
    simp [Processor.construct, List.getElem?_eq_getElem hj]

/-- C16 at `freshNode` (inputs at addresses 20 and 21): two `plugNext` calls
with the Outputs at addresses 10 and 11 leave input 0 aliasing the first and
input 1 the second. -/
theorem C16_plugNext_witness :
    (match freshNode.1.plugNextAll (fun m => Outcome.value m)
        [OutputPtr.obj 10, OutputPtr.obj 11] freshNode.2 with
      | Outcome.value m1 => (m1.inputs 20, m1.inputs 21)
      | _ => (none, none))
      = (some { source := OutputPtr.obj 10 }, some { source := OutputPtr.obj 11 }) := by
  obtain ⟨m1, h1, h2⟩ :=
    (C16_plugNext freshNode.1 freshNode.2 (OutputPtr.obj 10) Outcome.undefined
      (by
        intro ip hip
        have h : ip = some 20 ∨ ip = some 21 := by
          simpa [freshNode, Processor.construct] using hip
        rcases h with h | h
        · exact ⟨20, h, rfl⟩
        · exact ⟨21, h, rfl⟩)
      ⟨20, by simp [freshNode, Processor.construct], rfl⟩).2
      [20, 21] [12] [10, 11] 44100 64 false rawOutput wiredMemory
      (fun m => Outcome.value m) (by decide) rfl
  have h1a : freshNode.1.plugNextAll (fun m => Outcome.value m)
      [OutputPtr.obj 10, OutputPtr.obj 11] freshNode.2 = Outcome.value m1 := h1
  obtain ⟨a0, ha0, hm0⟩ := h2 0 10 rfl
  obtain ⟨a1, ha1, hm1⟩ := h2 1 11 rfl
  have e0 : a0 = 20 := by
    have : some (some 20) = some (some a0) := ha0
    simpa using this.symm
  have e1 : a1 = 21 := by
    have : some (some 21) = some (some a1) := ha1
    simpa using this.symm
  subst e0; subst e1
  rw [h1a]
  simp [hm0, hm1]

end Wiring

end mopo
